import Mathlib

/-!
Verification development for the document cache and position-translation
subsystem of the promql-langserver repository (package cache plus the position
conversion file).  Go source text is embedded shallowly: strings are modelled
as lists of Unicode scalar values (Lean Char), with UTF-8 byte widths and
UTF-16 code-unit widths computed per character; Go methods with pointer
receivers become functions that take the current document value and, where the
method can mutate it, return the updated document alongside the result.  Code
that can panic at runtime is given an explicit panicked outcome, distinct from
an ordinary returned error.  Blocking on the compilers wait group is modelled
as a distinct suspends outcome: a call whose wait guard is not satisfied in
the given state cannot return in that state.
-/

/-- UTF-16 code units contributed by one Unicode scalar value: characters in
the supplementary planes (code point at least 0x10000) take two units, all
others one. -/
def utf16Size (c : Char) : Nat :=
  if c.toNat < 65536 then 1 else 2

/-- UTF-8 byte length of a character sequence (the Go len of the string). -/
def utf8Len : List Char → Nat
  | [] => 0
  | c :: cs => c.utf8Size + utf8Len cs

/-- UTF-16 code-unit length of a character sequence. -/
def utf16Len : List Char → Nat
  | [] => 0
  | c :: cs => utf16Size c + utf16Len cs

/-- Drop the characters covering the first n bytes of the UTF-8 encoding.
Offsets produced by the conversion routines always fall on character
boundaries; a mid-character offset consumes the character it falls in. -/
def dropBytes : List Char → Nat → List Char
  | cs, 0 => cs
  | [], _ + 1 => []
  | c :: cs, n + 1 => dropBytes cs (n + 1 - c.utf8Size)

/-- Take the characters covering the first n bytes of the UTF-8 encoding. -/
def takeBytes : List Char → Nat → List Char
  | _, 0 => []
  | [], _ + 1 => []
  | c :: cs, n + 1 => c :: takeBytes cs (n + 1 - c.utf8Size)

/-- Line starts recorded by token.File.SetLinesForContent: byte offset 0 is a
line start if any byte exists, and the byte offset just after each newline is
a line start provided at least one byte follows it (the Go loop records a
pending line start only when it visits a byte at that offset). -/
def lineStartsAux : List Char → Nat → Option Nat → List Nat
  | [], _, _ => []
  | c :: cs, off, pending =>
    let rest := lineStartsAux cs (off + c.utf8Size)
      (if c = '\n' then some (off + c.utf8Size) else none)
    match pending with
    | some l => l :: rest
    | none => rest

/-- Line-start table of a byte content, as built by SetLinesForContent. -/
def lineStarts (cs : List Char) : List Nat :=
  lineStartsAux cs 0 (some 0)

/-- Position index of a document: the token.File that holds the base offset of
the file in its file set and the table of line start offsets. -/
structure PosIndex where
  base : Nat
  lines : List Nat
deriving DecidableEq

/-- Result of running a piece of Go code that can panic: either a normal
value or an aborted execution (runtime panic). -/
inductive GoResult (α : Type) where
  | ok : α → GoResult α
  | panicked : GoResult α
deriving DecidableEq

/-- Error values returned by the subsystem, one constructor per distinct
(error code, message) pair of the Go code.  Modelled from the spec for names:
versionNotIncreasing is the jsonrpc2 CodeInvalidParams error with message
about the version number, documentTooLarge the CodeInternalError from
SetContent, invalidContentChangeRange the CodeInternalError from
ApplyIncrementalChanges, obsolete the expired context error, invalidRange the
invalid range error of GetSubstring, notFound the no-query-found error of
GetQuery, invalidPosition the invalid position error of
YamlPositionToTokenPos, recovered the error built by the recover branch of
LineStartSafe, and spanError the errors of the vendored span conversion
helpers. -/
inductive GoErr where
  | versionNotIncreasing
  | documentTooLarge
  | invalidContentChangeRange
  | obsolete
  | invalidRange
  | notFound
  | invalidPosition
  | recovered
  | spanError
deriving DecidableEq

/-- Observable outcome of calling an exported method in a given state: a
normal result, a returned error, a runtime panic, or a call that suspends
because its wait-group guard is not satisfied in this state. -/
inductive Outcome (α : Type) where
  | ok : α → Outcome α
  | err : GoErr → Outcome α
  | panicked : Outcome α
  | suspends : Outcome α
deriving DecidableEq

/-- Modelled from the spec: token.File.LineStart of the Go standard library
(only declared, not part of the provided sources).  It returns the position of
the start of the given 1-based line and aborts (panics) when the line is out
of the range from 1 to the line count. -/
def fileLineStart (idx : PosIndex) (line : Int) : GoResult Nat :=
  if line < 1 ∨ (idx.lines.length : Int) < line then .panicked
  else .ok (idx.base + idx.lines.getD (line - 1).toNat 0)

/-- One compiled query stored in a document: its starting token.Pos, and for a
successful compilation the End of the PositionRange of its abstract syntax
tree, relative to the query start (astEnd is none when the Ast is nil). -/
structure CompiledQuery where
  pos : Int
  astEnd : Option Nat
deriving DecidableEq

/-- One embedded yaml document found in a document (only its identity matters
to the cache layer; the line offset maps its local lines to document lines). -/
structure YamlDoc where
  lineOffset : Nat
deriving DecidableEq

/-- One diagnostic message published by compilation. -/
structure Diagnostic where
  message : String
deriving DecidableEq

/-- The document record of the cache package: content, metadata, derived
compile results, the position index, the generation counter that stands for
the current version context (context.WithCancel mints a fresh generation;
cancelling the previous one makes every handle that captured it observe a done
context), and the compilers wait-group counter. -/
structure document where
  posData : PosIndex
  uri : String
  languageID : String
  version : Int
  content : List Char
  gen : Nat
  queries : List CompiledQuery
  yamls : List YamlDoc
  diagnostics : List Diagnostic
  pendingCompilations : Nat
deriving DecidableEq

/-- A DocumentHandle bundles the document with the version context captured at
acquisition; the document pointer is represented by passing the current
document state explicitly to each method.  The handle's context is done
exactly when its generation differs from the document's current one. -/
structure DocumentHandle where
  gen : Nat
deriving DecidableEq

/-- Modelled from the spec: the fixed maximum document size accepted by
SetContent.  The constant maxDocumentSize is referenced by the provided
sources but defined elsewhere in the repository; only that it is a fixed
bound matters here. -/
def maxDocumentSize : Nat := 1000

/-- SetContent of DocumentHandle: rejects a version that did not increase
(unless the document is new), then rejects content above the maximum size,
then cancels the previous version context, mints a fresh one, stores content
and version, rebuilds the position index from the content with one newline
appended, clears the derived slots, increments the compilers counter and
schedules recompilation.  Returns the updated document with the error, the
unchanged document on failure. -/
def SetContent (d : document) (content : List Char) (version : Int)
    (isNew : Bool) : document × Option GoErr :=
  if isNew = false ∧ version ≤ d.version then
    (d, some .versionNotIncreasing)
  else if maxDocumentSize < utf8Len content then
    (d, some .documentTooLarge)
  else
    ({ d with
        content := content
        version := version
        gen := d.gen + 1
        posData := ⟨d.posData.base, lineStarts (content ++ ['\n'])⟩
        queries := []
        yamls := []
        diagnostics := []
        pendingCompilations := d.pendingCompilations + 1 }, none)

/-- Modelled from the spec: completion of the asynchronous recompilation task
(the compile method is referenced but not among the provided sources).  If the
generation the task was launched with is still current it publishes its
results into the derived slots; otherwise the results are discarded.  Either
way it decrements the compilers counter it was tracked under. -/
def compileFinish (d : document) (taskGen : Nat) (qs : List CompiledQuery)
    (ys : List YamlDoc) (ds : List Diagnostic) : document :=
  if taskGen = d.gen then
    { d with
        queries := qs
        yamls := ys
        diagnostics := ds
        pendingCompilations := d.pendingCompilations - 1 }
  else
    { d with pendingCompilations := d.pendingCompilations - 1 }

/-- GetContent: fails once the handle's version context is done, otherwise
returns the stored content. -/
def GetContent (h : DocumentHandle) (d : document) : Outcome (List Char) :=
  if h.gen ≠ d.gen then .err .obsolete else .ok d.content

/-- GetVersion: fails once the handle's version context is done, otherwise
returns the stored version. -/
def GetVersion (h : DocumentHandle) (d : document) : Outcome Int :=
  if h.gen ≠ d.gen then .err .obsolete else .ok d.version

/-- GetURI: returns the uri without consulting the handle's context, so it
never blocks and never fails. -/
def GetURI (_h : DocumentHandle) (d : document) : String :=
  d.uri

/-- GetLanguageID: returns the language identifier without consulting the
handle's context, so it never blocks and never fails. -/
def GetLanguageID (_h : DocumentHandle) (d : document) : String :=
  d.languageID

/-- GetSubstring: fails once the handle's version context is done, otherwise
normalizes the two token.Pos values against the index base and returns the
byte slice, or the invalid range error when the offsets are inverted or out
of bounds. -/
def GetSubstring (h : DocumentHandle) (d : document) (pos endPos : Int) :
    Outcome (List Char) :=
  if h.gen ≠ d.gen then .err .obsolete
  else
    let p := pos - (d.posData.base : Int)
    let e := endPos - (d.posData.base : Int)
    if p < 0 ∨ e < p ∨ (utf8Len d.content : Int) < e then .err .invalidRange
    else .ok (takeBytes (dropBytes d.content p.toNat) (e - p).toNat)

/-- GetQueries: first waits on the compilers wait group, so in a state whose
counter is not zero the call suspends; then it fails once the handle's
version context is done and otherwise returns the stored queries. -/
def GetQueries (h : DocumentHandle) (d : document) :
    Outcome (List CompiledQuery) :=
  if d.pendingCompilations ≠ 0 then .suspends
  else if h.gen ≠ d.gen then .err .obsolete
  else .ok d.queries

/-- GetDiagnostics: first waits on the compilers wait group, then checks the
handle's version context and returns the stored diagnostics. -/
def GetDiagnostics (h : DocumentHandle) (d : document) :
    Outcome (List Diagnostic) :=
  if d.pendingCompilations ≠ 0 then .suspends
  else if h.gen ≠ d.gen then .err .obsolete
  else .ok d.diagnostics

/-- GetYamls: checks the handle's version context and returns the stored yaml
documents.  The Go function takes only the read lock; unlike GetQueries and
GetDiagnostics it performs no wait on the compilers wait group. -/
def GetYamls (h : DocumentHandle) (d : document) : Outcome (List YamlDoc) :=
  if h.gen ≠ d.gen then .err .obsolete else .ok d.yamls

/-- The loop body of GetQuery: scan the stored queries in order and return
the first whose Ast is not nil and whose closed span from Pos to Pos plus the
Ast PositionRange End contains the position. -/
def findQuery : List CompiledQuery → Int → Option CompiledQuery
  | [], _ => none
  | q :: qs, pos =>
    match q.astEnd with
    | some e =>
      if q.pos ≤ pos ∧ pos ≤ q.pos + (e : Int) then some q
      else findQuery qs pos
    | none => findQuery qs pos

/-- GetQuery: obtains the queries through GetQueries (inheriting its wait and
its context check), scans them in order and returns the first successfully
compiled query whose closed span contains the position, or the not-found
error. -/
def GetQuery (h : DocumentHandle) (d : document) (pos : Int) :
    Outcome CompiledQuery :=
  match GetQueries h d with
  | .suspends => .suspends
  | .panicked => .panicked
  | .err e => .err e
  | .ok qs =>
    match findQuery qs pos with
    | some q => .ok q
    | none => .err .notFound

/-- An example document used to instantiate theorems: content ab at version 1,
generation 0, no pending compilation, index built for content plus the
appended newline with file set base 1. -/
def exDoc : document where
  posData := ⟨1, lineStarts (['a', 'b'] ++ ['\n'])⟩
  uri := "file:///x.promql"
  languageID := "promql"
  version := 1
  content := ['a', 'b']
  gen := 0
  queries := []
  yamls := []
  diagnostics := []
  pendingCompilations := 0

/-- An internal position as used by the conversion entry points: the Line and
Column fields of a go token.Position (1-based line, 1-based byte column). -/
structure TokenPosition where
  line : Int
  column : Int
deriving DecidableEq

/-- A protocol position: 0-based line and 0-based UTF-16 code-unit column. -/
structure ProtocolPosition where
  line : Int
  character : Int
deriving DecidableEq

/-- LineStartSafe: wraps the panicking line-start lookup of the position index
in a deferred recover, so an out-of-range line surfaces as a returned error
value instead of an aborted execution. -/
def LineStartSafe (d : document) (line : Int) : Except GoErr Nat :=
  match fileLineStart d.posData line with
  | .ok p => .ok p
  | .panicked => .error .recovered

/-- Modelled from the spec: span.ToUTF16Column of the vendored go-tools span
package (not among the provided sources).  Given a point carrying the 1-based
byte column and the 0-based absolute byte offset of a position, it counts the
UTF-16 code units of the bytes of that line before the byte column — a
supplementary-plane character counting two units, every other character one —
and returns the count plus one (the 1-based UTF-16 column); a zero-width
prefix yields column one directly, and a negative column or an offset outside
the content is an error. -/
def toUTF16Column (col offset : Int) (content : List Char) :
    Except GoErr Int :=
  let colZero := col - 1
  if colZero = 0 then .ok 1
  else if colZero < 0 then .error .spanError
  else
    let lineOffset := offset - colZero
    if lineOffset < 0 ∨ (utf8Len content : Int) < offset then .error .spanError
    else
      .ok ((utf16Len (takeBytes (dropBytes content lineOffset.toNat)
        colZero.toNat) : Int) + 1)

/-- Scanning loop of the inverse UTF-16 conversion: advance over characters
while UTF-16 units remain to be counted, stopping at a newline, stopping
without advancing when the last requested unit falls in the middle of a
supplementary-plane character, and failing when the content ends before the
requested count is reached.  Returns the byte advance. -/
def fromUTF16Loop : List Char → Nat → Nat → Except GoErr Nat
  | _, 0, adv => .ok adv
  | [], _ + 1, _ => .error .spanError
  | c :: cs, rem + 1, adv =>
    if c = '\n' then .ok adv
    else if 65536 ≤ c.toNat then
      match rem with
      | 0 => .ok adv
      | rem2 + 1 => fromUTF16Loop cs rem2 (adv + c.utf8Size)
    else fromUTF16Loop cs rem (adv + c.utf8Size)

/-- Modelled from the spec: span.FromUTF16Column of the vendored go-tools span
package (not among the provided sources).  Given a point at the start of a
line (column, absolute byte offset) and a requested 1-based UTF-16 column, it
scans the line counting UTF-16 code units until the requested count is
reached, yielding the equivalent byte column and offset: a count of at most
one leaves the point unchanged, an offset at or past the end of the content is
an error, and otherwise the point advances by the bytes of the characters
covering the units before the requested one. -/
def fromUTF16Column (col offset chr : Int) (content : List Char) :
    Except GoErr (Int × Int) :=
  if chr ≤ 1 then .ok (col, offset)
  else if (utf8Len content : Int) ≤ offset then .error .spanError
  else
    match fromUTF16Loop (dropBytes content offset.toNat) (chr - 1).toNat 0 with
    | .error e => .error e
    | .ok adv => .ok (col + adv, offset + adv)

/-- PositionToProtocolPosition: fails once the handle's version context is
done; a line below one (as produced when parsing empty files) succeeds with
the zero protocol position; otherwise the line start is looked up safely, the
absolute offset of the position is computed from it, the byte column is
converted to a 1-based UTF-16 column against the content, and line and column
are decremented for the 0-based protocol form. -/
def PositionToProtocolPosition (h : DocumentHandle) (d : document)
    (pos : TokenPosition) : Outcome ProtocolPosition :=
  if h.gen ≠ d.gen then .err .obsolete
  else if pos.line < 1 then .ok ⟨0, 0⟩
  else
    match LineStartSafe d pos.line with
    | .error e => .err e
    | .ok lineStart =>
      match toUTF16Column pos.column
        ((lineStart : Int) - (d.posData.base : Int) + pos.column - 1)
        d.content with
      | .error e => .err e
      | .ok u => .ok ⟨pos.line - 1, u - 1⟩

/-- ProtocolPositionToTokenPos: fails once the handle's version context is
done; otherwise the 0-based protocol line is incremented, its line start is
looked up safely, a point at column one of that line is advanced by the
protocol character count through the UTF-16 converter, and the resulting
column is added to the line start to form the token.Pos. -/
def ProtocolPositionToTokenPos (h : DocumentHandle) (d : document)
    (pos : ProtocolPosition) : Outcome Int :=
  if h.gen ≠ d.gen then .err .obsolete
  else
    match LineStartSafe d (pos.line + 1) with
    | .error e => .err e
    | .ok lineStart =>
      match fromUTF16Column 1 ((lineStart : Int) - (d.posData.base : Int))
        pos.character d.content with
      | .error e => .err e
      | .ok p => .ok ((lineStart : Int) + p.1)

/-- YamlPositionToTokenPos: converts a position of the format used by the
yaml parser to a token.Pos.  It fails once the handle's version context is
done, rejects a column below one with the invalid position error, otherwise
looks up the start of the line shifted by the embedded document's line offset
through LineStartSafe and adds the 0-based column. -/
def YamlPositionToTokenPos (h : DocumentHandle) (d : document)
    (line column lineOffset : Int) : Outcome Int :=
  if h.gen ≠ d.gen then .err .obsolete
  else if column < 1 then .err .invalidPosition
  else
    match LineStartSafe d (line + lineOffset) with
    | .error e => .err e
    | .ok lineStart => .ok ((lineStart : Int) + (column - 1))

/-- A protocol range: start and end protocol positions (the End field of the
Go struct is named endPos because end is reserved in Lean). -/
structure ProtocolRange where
  start : ProtocolPosition
  endPos : ProtocolPosition
deriving DecidableEq

/-- A TextDocumentContentChangeEvent: the Range field of the Go struct is a
pointer and is nil for a whole-document change, hence an Option here; the
RangeLength field is never read by this code and is omitted. -/
structure ContentChangeEvent where
  range : Option ProtocolRange
  text : List Char
deriving DecidableEq

/-- Modelled from the spec: translation of one protocol position to an
absolute byte offset against a given byte content (part of the vendored
ColumnMapper machinery, not among the provided sources): find the start
offset of the 1-based line in the line table of the content, then advance by
the bytes of the characters covering the requested number of UTF-16 code
units.  A line outside the table or a negative character count is an error. -/
def positionByteOffset (content : List Char) (p : ProtocolPosition) :
    Except GoErr Nat :=
  let ls := lineStarts content
  let line := p.line + 1
  if line < 1 ∨ (ls.length : Int) < line then .error .spanError
  else if p.character < 0 then .error .spanError
  else
    let lineOff := ls.getD (line - 1).toNat 0
    match fromUTF16Loop (dropBytes content lineOff) p.character.toNat 0 with
    | .error e => .error e
    | .ok adv => .ok (lineOff + adv)

/-- Modelled from the spec: ColumnMapper.RangeSpan of the vendored go-tools
protocol package (not among the provided sources): translate the two protocol
positions of a range to absolute byte offsets against the given content. -/
def rangeSpan (content : List Char) (r : ProtocolRange) :
    Except GoErr (Nat × Nat) :=
  match positionByteOffset content r.start with
  | .error e => .error e
  | .ok s =>
    match positionByteOffset content r.endPos with
    | .error e => .error e
    | .ok e => .ok (s, e)

/-- The loop of ApplyIncrementalChanges: for each change in order, rebuild the
column mapper against the content as mutated so far, translate the change's
range to byte offsets, reject an inverted range, and splice the replacement
text between the offsets.  A change whose Range pointer is nil is dereferenced
unconditionally by the Go code, so such a change aborts the call with a
runtime panic. -/
def applyChangesLoop : List Char → List ContentChangeEvent →
    Outcome (List Char)
  | content, [] => .ok content
  | content, change :: rest =>
    match change.range with
    | none => .panicked
    | some r =>
      match rangeSpan content r with
      | .error e => .err e
      | .ok (s, e) =>
        if e < s then .err .invalidContentChangeRange
        else
          applyChangesLoop
            (takeBytes content s ++ change.text ++ dropBytes content e) rest

/-- ApplyIncrementalChanges: under the read lock, rejects a version that did
not increase, then folds the changes over a copy of the stored content and
returns the fully spliced text.  The method only reads the document, so the
document component of the result is the receiver unchanged. -/
def ApplyIncrementalChanges (d : document) (changes : List ContentChangeEvent)
    (version : Int) : document × Outcome (List Char) :=
  if version ≤ d.version then (d, .err .versionNotIncreasing)
  else (d, applyChangesLoop d.content changes)

/-- An example document with one stored query starting at token.Pos 10 whose
Ast PositionRange End is 3. -/
def exDoc5 : document :=
  { exDoc with queries := [⟨10, some 3⟩] }

/-- Containment in the closed span of a compiled query, as tested by the Go
loop of GetQuery: the query compiled to a non-nil Ast and the position lies
between Pos and Pos plus the Ast PositionRange End, both ends included. -/
def InSpan (q : CompiledQuery) (pos : Int) : Prop :=
  match q.astEnd with
  | some e => q.pos ≤ pos ∧ pos ≤ q.pos + (e : Int)
  | none => False

example : lineStarts ['a', 'b', '\n'] = [0] := by decide
example : (SetContent exDoc ['a'] 2 false).2 = none := by decide
example : (SetContent exDoc ['a'] 2 false).1.pendingCompilations = 1 := by decide
example : GetYamls ⟨1⟩ (SetContent exDoc ['a'] 2 false).1 = .ok [] := by decide
example : GetQueries ⟨1⟩ (SetContent exDoc ['a'] 2 false).1 = .suspends := by decide

example : PositionToProtocolPosition ⟨0⟩ exDoc ⟨1, 1⟩ = .ok ⟨0, 0⟩ := by decide
example : ProtocolPositionToTokenPos ⟨0⟩ exDoc ⟨0, 0⟩ = .ok 2 := by decide
example : PositionToProtocolPosition ⟨0⟩ exDoc ⟨1, 3⟩ = .ok ⟨0, 2⟩ := by decide
example : ProtocolPositionToTokenPos ⟨0⟩ exDoc ⟨0, 2⟩ = .ok 3 := by decide
example : PositionToProtocolPosition ⟨0⟩ exDoc ⟨1, 2⟩ = .ok ⟨0, 1⟩ := by decide
example : ProtocolPositionToTokenPos ⟨0⟩ exDoc ⟨0, 1⟩ = .ok 2 := by decide

/-- A successful SetContent bumps the generation, increments the compilers
counter, keeps uri and language identifier, and clears the derived slots. -/
theorem SetContent_ok (d : document) (c : List Char) (v : Int) (n : Bool)
    (d2 : document) (hset : SetContent d c v n = (d2, none)) :
    d2.gen = d.gen + 1 ∧
    d2.pendingCompilations = d.pendingCompilations + 1 ∧
    d2.uri = d.uri ∧ d2.languageID = d.languageID ∧
    d2.queries = [] ∧ d2.yamls = [] ∧ d2.diagnostics = [] := by
  unfold SetContent at hset
  split at hset
  · simp at hset
  · split at hset
    · simp at hset
    · rw [Prod.mk.injEq] at hset
      obtain ⟨hd2, -⟩ := hset
      subst hd2
      exact ⟨rfl, rfl, rfl, rfl, rfl, rfl, rfl⟩

/-- The byte length of a replicated character list. -/
theorem utf8Len_replicate (n : Nat) (c : Char) :
    utf8Len (List.replicate n c) = n * c.utf8Size := by
  induction n with
  | zero => simp [List.replicate, utf8Len]
  | succ k ih =>
    rw [List.replicate_succ]
    unfold utf8Len
    rw [ih]
    ring

/-- A query found by the scan splits the list into unsuccessful earlier
queries, the found query whose closed span contains the position, and a
remainder. -/
theorem findQuery_some (qs : List CompiledQuery) (pos : Int)
    (q : CompiledQuery) (hfq : findQuery qs pos = some q) :
    ∃ l1 l2, qs = l1 ++ q :: l2 ∧ InSpan q pos ∧ ∀ p ∈ l1, ¬ InSpan p pos := by
  induction qs with
  | nil => simp [findQuery] at hfq
  | cons x rest ih =>
    cases hx : x.astEnd with
    | none =>
      simp only [findQuery, hx] at hfq
      obtain ⟨l1, l2, hqs, hin, hnot⟩ := ih hfq
      refine ⟨x :: l1, l2, by rw [hqs]; rfl, hin, ?_⟩
      intro p hp
      rcases List.mem_cons.mp hp with h1 | h2
      · subst h1
        simp [InSpan, hx]
      · exact hnot p h2
    | some e =>
      simp only [findQuery, hx] at hfq
      by_cases hc : x.pos ≤ pos ∧ pos ≤ x.pos + (e : Int)
      · rw [if_pos hc] at hfq
        injection hfq with hxq
        subst hxq
        exact ⟨[], rest, rfl, by simp [InSpan, hx]; exact hc, by simp⟩
      · rw [if_neg hc] at hfq
        obtain ⟨l1, l2, hqs, hin, hnot⟩ := ih hfq
        refine ⟨x :: l1, l2, by rw [hqs]; rfl, hin, ?_⟩
        intro p hp
        rcases List.mem_cons.mp hp with h1 | h2
        · subst h1
          simp only [InSpan, hx]
          exact hc
        · exact hnot p h2

/-- The scan comes back empty exactly when no stored query's closed span
contains the position. -/
theorem findQuery_none_iff (qs : List CompiledQuery) (pos : Int) :
    findQuery qs pos = none ↔ ∀ q ∈ qs, ¬ InSpan q pos := by
  induction qs with
  | nil => simp [findQuery]
  | cons x rest ih =>
    cases hx : x.astEnd with
    | none =>
      simp only [findQuery, hx]
      rw [ih]
      constructor
      · intro hrest q hq
        rcases List.mem_cons.mp hq with h1 | h2
        · subst h1
          simp [InSpan, hx]
        · exact hrest q h2
      · intro hall q hq
        exact hall q (List.mem_cons_of_mem _ hq)
    | some e =>
      simp only [findQuery, hx]
      by_cases hc : x.pos ≤ pos ∧ pos ≤ x.pos + (e : Int)
      · rw [if_pos hc]
        constructor
        · intro hcontra
          exact Option.noConfusion hcontra
        · intro hall
          have hxin : InSpan x pos := by
            simp only [InSpan, hx]
            exact hc
          exact absurd hxin (hall x (List.mem_cons_self x rest))
      · rw [if_neg hc]
        rw [ih]
        constructor
        · intro hrest q hq
          rcases List.mem_cons.mp hq with h1 | h2
          · subst h1
            simp only [InSpan, hx]
            exact hc
          · exact hrest q h2
        · intro hall q hq
          exact hall q (List.mem_cons_of_mem _ hq)

/-- C1: the claim says GetQueries, GetDiagnostics and GetYamls all suspend
until the compilers counter drains to zero before returning.  In the state
reached by a successful SetContent the counter is one, GetQueries and
GetDiagnostics indeed suspend there, but GetYamls — whose own documentation
comment also says it blocks until all compile tasks are finished — performs no
wait and returns the freshly cleared, empty yaml slot at once, so a caller can
observe the partially populated snapshot. -/
theorem c1_GetYamls_returns_without_waiting :
    (SetContent exDoc ['a'] 2 false).2 = none ∧
    (SetContent exDoc ['a'] 2 false).1.pendingCompilations = 1 ∧
    GetYamls ⟨(SetContent exDoc ['a'] 2 false).1.gen⟩
      (SetContent exDoc ['a'] 2 false).1 = .ok [] ∧
    GetQueries ⟨(SetContent exDoc ['a'] 2 false).1.gen⟩
      (SetContent exDoc ['a'] 2 false).1 = .suspends ∧
    GetDiagnostics ⟨(SetContent exDoc ['a'] 2 false).1.gen⟩
      (SetContent exDoc ['a'] 2 false).1 = .suspends := by
  decide

/-- C2: the round trip is broken.  On the two-character ASCII document ab the
internal position line 1, column 1 (token.Pos 1, the very start of the line)
converts to protocol position (0, 0), but converting that back yields
token.Pos 2 — ProtocolPositionToTokenPos adds the converter's 1-based byte
column to the line start without subtracting one, and feeds the 0-based
protocol character to a converter whose count is 1-based, so the two
off-by-ones cancel only when the character before the position is a one-byte
rune, and never at a line start. -/
theorem c2_roundtrip_off_by_one :
    PositionToProtocolPosition ⟨0⟩ exDoc ⟨1, 1⟩ = .ok ⟨0, 0⟩ ∧
    ProtocolPositionToTokenPos ⟨0⟩ exDoc ⟨0, 0⟩ = .ok 2 ∧
    LineStartSafe exDoc 1 = .ok 1 ∧
    (2 : Int) ≠ 1 + (1 - 1) :=
  ⟨by decide, by decide, rfl, by decide⟩

/-- C3 counterexample: after a successful SetContent the pre-existing handle
is stale, yet GetURI — a getter of the handle interface — returns the uri
normally instead of failing with the obsolete error (its Go signature cannot
even return an error). -/
theorem c3_counterexample_GetURI_succeeds_on_stale_handle :
    (SetContent exDoc ['a'] 2 false).2 = none ∧
    (⟨0⟩ : DocumentHandle).gen ≠ (SetContent exDoc ['a'] 2 false).1.gen ∧
    GetURI ⟨0⟩ (SetContent exDoc ['a'] 2 false).1 = "file:///x.promql" := by
  decide

/-- C3 (amended): after any successful SetContent, a handle obtained before
the call fails every context-checked getter — GetContent, GetVersion,
GetYamls, GetSubstring, the position conversions, and, once the recompilation
task has drained the compilers counter, GetQueries, GetDiagnostics and
GetQuery — with the obsolete error; GetURI and GetLanguageID read immutable
fields and return normally without consulting the handle's context. -/
theorem c3_stale_handle_fails_checked_getters (d : document)
    (h : DocumentHandle) (c : List Char) (v : Int) (n : Bool) (d2 : document)
    (hcur : h.gen = d.gen) (hpend : d.pendingCompilations = 0)
    (hset : SetContent d c v n = (d2, none)) :
    GetContent h d2 = .err .obsolete ∧
    GetVersion h d2 = .err .obsolete ∧
    GetYamls h d2 = .err .obsolete ∧
    (∀ p q : Int, GetSubstring h d2 p q = .err .obsolete) ∧
    (∀ pos, PositionToProtocolPosition h d2 pos = .err .obsolete) ∧
    (∀ pos, ProtocolPositionToTokenPos h d2 pos = .err .obsolete) ∧
    (∀ g qs ys ds,
      GetQueries h (compileFinish d2 g qs ys ds) = .err .obsolete ∧
      GetDiagnostics h (compileFinish d2 g qs ys ds) = .err .obsolete ∧
      ∀ pos, GetQuery h (compileFinish d2 g qs ys ds) pos = .err .obsolete) ∧
    GetURI h d2 = d.uri ∧
    GetLanguageID h d2 = d.languageID := by
  obtain ⟨hgen, hpc, huri, hlang, -, -, -⟩ := SetContent_ok d c v n d2 hset
  have hne : h.gen ≠ d2.gen := by omega
  have hcf : ∀ g qs ys ds,
      (compileFinish d2 g qs ys ds).pendingCompilations = 0 ∧
      (compileFinish d2 g qs ys ds).gen = d2.gen := by
    intro g qs ys ds
    unfold compileFinish
    split
    · exact ⟨by simp [hpc, hpend], rfl⟩
    · exact ⟨by simp [hpc, hpend], rfl⟩
  have hQ : ∀ g qs ys ds,
      GetQueries h (compileFinish d2 g qs ys ds) = .err .obsolete := by
    intro g qs ys ds
    unfold GetQueries
    rw [(hcf g qs ys ds).1]
    rw [if_neg (by simp)]
    rw [(hcf g qs ys ds).2]
    exact if_pos hne
  refine ⟨?_, ?_, ?_, ?_, ?_, ?_, ?_, ?_, ?_⟩
  · unfold GetContent
    exact if_pos hne
  · unfold GetVersion
    exact if_pos hne
  · unfold GetYamls
    exact if_pos hne
  · intro p q
    unfold GetSubstring
    exact if_pos hne
  · intro pos
    unfold PositionToProtocolPosition
    exact if_pos hne
  · intro pos
    unfold ProtocolPositionToTokenPos
    exact if_pos hne
  · intro g qs ys ds
    refine ⟨hQ g qs ys ds, ?_, ?_⟩
    · unfold GetDiagnostics
      rw [(hcf g qs ys ds).1]
      rw [if_neg (by simp)]
      rw [(hcf g qs ys ds).2]
      exact if_pos hne
    · intro pos
      unfold GetQuery
      rw [hQ g qs ys ds]
  · unfold GetURI
    exact huri
  · unfold GetLanguageID
    exact hlang

/-- Witness for C3 (amended) at a concrete document and edit. -/
theorem c3_stale_handle_fails_checked_getters_witness :
    GetContent ⟨0⟩ (SetContent exDoc ['a'] 2 false).1 = .err .obsolete :=
  (c3_stale_handle_fails_checked_getters exDoc ⟨0⟩ ['a'] 2 false
    (SetContent exDoc ['a'] 2 false).1 rfl rfl (by decide)).1

/-- C4: a whole-document change event carries a nil Range pointer; the Go
loop dereferences it unconditionally, so instead of replacing the whole
content with the replacement text the call aborts with a runtime panic. -/
theorem c4_nil_range_change_panics :
    ApplyIncrementalChanges exDoc [{ range := none, text := ['x'] }] 2
      = (exDoc, .panicked) ∧
    (Outcome.panicked : Outcome (List Char)) ≠ .ok ['x'] := by
  decide

/-- C5 counterexample: the stored query starts at 10 with Ast End 3; offset 13
equals start plus length, which lies outside the half-open span the claim
describes, yet GetQuery returns the query because the Go comparison is
Pos+End >= pos, a closed span. -/
theorem c5_counterexample_closed_boundary :
    exDoc5.queries = [⟨10, some 3⟩] ∧
    GetQuery ⟨0⟩ exDoc5 13 = .ok ⟨10, some 3⟩ ∧
    ¬((10 : Int) ≤ 13 ∧ (13 : Int) < 10 + 3) := by
  decide

/-- C5 (amended): with no compilation pending and a current handle, GetQuery
scans the stored queries in order and returns the first successfully compiled
query whose closed span from Pos to Pos plus the Ast End contains the offset,
and fails with the not-found error exactly when no stored query's closed span
contains the offset. -/
theorem c5_GetQuery_first_closed_span (d : document) (h : DocumentHandle)
    (pos : Int) (hp : d.pendingCompilations = 0) (hv : h.gen = d.gen) :
    (∀ q, GetQuery h d pos = .ok q →
      ∃ l1 l2, d.queries = l1 ++ q :: l2 ∧ InSpan q pos ∧
        ∀ p ∈ l1, ¬ InSpan p pos) ∧
    ((∀ q ∈ d.queries, ¬ InSpan q pos) → GetQuery h d pos = .err .notFound) ∧
    ((∃ q ∈ d.queries, InSpan q pos) → ∃ q, GetQuery h d pos = .ok q) := by
  have hQ : GetQueries h d = .ok d.queries := by
    unfold GetQueries
    rw [if_neg (by simp [hp]), if_neg (by simp [hv])]
  refine ⟨?_, ?_, ?_⟩
  · intro q hq
    simp only [GetQuery, hQ] at hq
    cases hfq : findQuery d.queries pos with
    | none =>
      rw [hfq] at hq
      exact Outcome.noConfusion hq
    | some q2 =>
      rw [hfq] at hq
      injection hq with hq2
      subst hq2
      exact findQuery_some d.queries pos q2 hfq
  · intro hall
    simp only [GetQuery, hQ]
    rw [(findQuery_none_iff d.queries pos).mpr hall]
  · intro hex
    simp only [GetQuery, hQ]
    cases hfq : findQuery d.queries pos with
    | some q =>
      exact ⟨q, rfl⟩
    | none =>
      obtain ⟨q, hq, hin⟩ := hex
      exact absurd hin ((findQuery_none_iff d.queries pos).mp hfq q hq)

/-- Witness for C5 (amended): on a document with no stored queries the lookup
fails with the not-found error. -/
theorem c5_GetQuery_first_closed_span_witness :
    GetQuery ⟨0⟩ exDoc 5 = .err .notFound :=
  (c5_GetQuery_first_closed_span exDoc ⟨0⟩ 5 rfl rfl).2.1 (by simp [exDoc])

/-- C6: SetContent on a non-new document with a version at most the stored
one fails with the version-not-increasing error and returns the document
unchanged in every field. -/
theorem c6_version_not_increasing (d : document) (c : List Char) (v : Int)
    (hv : v ≤ d.version) :
    SetContent d c v false = (d, some .versionNotIncreasing) := by
  unfold SetContent
  exact if_pos ⟨rfl, hv⟩

/-- Witness for C6 at a concrete document and version. -/
theorem c6_version_not_increasing_witness :
    SetContent exDoc ['a'] 1 false = (exDoc, some .versionNotIncreasing) :=
  c6_version_not_increasing exDoc ['a'] 1 (by decide)

/-- C7: SetContent with content longer than the fixed maximum fails with the
too-large error and returns the document unchanged, and the size check runs
after the version check: when the version check also fails, the call reports
version-not-increasing instead. -/
theorem c7_document_too_large (d : document) (c : List Char) (v : Int)
    (n : Bool) (hlen : maxDocumentSize < utf8Len c) :
    (¬(n = false ∧ v ≤ d.version) →
      SetContent d c v n = (d, some .documentTooLarge)) ∧
    ((n = false ∧ v ≤ d.version) →
      SetContent d c v n = (d, some .versionNotIncreasing)) := by
  constructor
  · intro hver
    unfold SetContent
    rw [if_neg hver]
    exact if_pos hlen
  · intro hver
    unfold SetContent
    exact if_pos hver

/-- Witness for C7: a 1001-byte content against the fixed maximum of 1000. -/
theorem c7_document_too_large_witness :
    SetContent exDoc (List.replicate 1001 'a') 2 false
      = (exDoc, some .documentTooLarge) :=
  (c7_document_too_large exDoc (List.replicate 1001 'a') 2 false
    (by rw [utf8Len_replicate]; decide)).1 (by decide)

/-- C8: the underlying index lookup aborts on a line outside 1..lineCount,
and LineStartSafe turns exactly that abort into an ordinary returned error;
moreover every position conversion built on it — PositionToProtocolPosition,
ProtocolPositionToTokenPos and YamlPositionToTokenPos — can never produce the
panicked outcome for any input, and YamlPositionToTokenPos surfaces the
recovered error to its caller whenever the shifted line it looks up is the
out-of-range one. -/
theorem c8_line_start_lookup_recovers (d : document) (line : Int)
    (hout : line < 1 ∨ (d.posData.lines.length : Int) < line) :
    fileLineStart d.posData line = .panicked ∧
    LineStartSafe d line = .error .recovered ∧
    (∀ (h : DocumentHandle) (e : document) (pos : TokenPosition),
      PositionToProtocolPosition h e pos ≠ .panicked) ∧
    (∀ (h : DocumentHandle) (e : document) (pos : ProtocolPosition),
      ProtocolPositionToTokenPos h e pos ≠ .panicked) ∧
    (∀ (h : DocumentHandle) (e : document) (yline column lineOffset : Int),
      YamlPositionToTokenPos h e yline column lineOffset ≠ .panicked) ∧
    (∀ (h : DocumentHandle) (column lineOffset : Int),
      h.gen = d.gen → 1 ≤ column →
      YamlPositionToTokenPos h d (line - lineOffset) column lineOffset
        = .err .recovered) := by
  have hfls : fileLineStart d.posData line = .panicked := by
    unfold fileLineStart
    exact if_pos hout
  have hsafe : LineStartSafe d line = .error .recovered := by
    unfold LineStartSafe
    rw [hfls]
  refine ⟨hfls, hsafe, ?_, ?_, ?_, ?_⟩
  · intro h e pos hc
    unfold PositionToProtocolPosition at hc
    split at hc
    · exact Outcome.noConfusion hc
    · split at hc
      · exact Outcome.noConfusion hc
      · split at hc
        · exact Outcome.noConfusion hc
        · split at hc
          · exact Outcome.noConfusion hc
          · exact Outcome.noConfusion hc
  · intro h e pos hc
    unfold ProtocolPositionToTokenPos at hc
    split at hc
    · exact Outcome.noConfusion hc
    · split at hc
      · exact Outcome.noConfusion hc
      · split at hc
        · exact Outcome.noConfusion hc
        · exact Outcome.noConfusion hc
  · intro h e yline column lineOffset hc
    unfold YamlPositionToTokenPos at hc
    split at hc
    · exact Outcome.noConfusion hc
    · split at hc
      · exact Outcome.noConfusion hc
      · split at hc
        · exact Outcome.noConfusion hc
        · exact Outcome.noConfusion hc
  · intro h column lineOffset hcur hcol
    unfold YamlPositionToTokenPos
    rw [if_neg (by simp [hcur])]
    rw [if_neg (by omega)]
    have harith : line - lineOffset + lineOffset = line := by ring
    rw [harith, hsafe]

/-- Witness for C8: line 0 of the example document's index, also reached
through the yaml conversion with line offset 7. -/
theorem c8_line_start_lookup_recovers_witness :
    fileLineStart exDoc.posData 0 = .panicked ∧
    LineStartSafe exDoc 0 = .error .recovered ∧
    YamlPositionToTokenPos ⟨0⟩ exDoc (0 - 7) 1 7 = .err .recovered :=
  ⟨(c8_line_start_lookup_recovers exDoc 0 (Or.inl (by decide))).1,
   (c8_line_start_lookup_recovers exDoc 0 (Or.inl (by decide))).2.1,
   (c8_line_start_lookup_recovers exDoc 0
     (Or.inl (by decide))).2.2.2.2.2 ⟨0⟩ 1 7 rfl (by decide)⟩

/-- C9: ApplyIncrementalChanges only computes the spliced text; the document
component of its result is the receiver unchanged in every field, for every
batch of changes and every version. -/
theorem c9_ApplyIncrementalChanges_reads_only (d : document)
    (changes : List ContentChangeEvent) (version : Int) :
    (ApplyIncrementalChanges d changes version).1 = d := by
  unfold ApplyIncrementalChanges
  split
  · rfl
  · rfl

/-- C10: with a current handle, an input position whose line is below one —
as produced when parsing empty files — succeeds and maps to the zero protocol
position instead of failing the line lookup. -/
theorem c10_line_below_one_maps_to_origin (h : DocumentHandle) (d : document)
    (pos : TokenPosition) (hv : h.gen = d.gen) (hl : pos.line < 1) :
    PositionToProtocolPosition h d pos = .ok ⟨0, 0⟩ := by
  unfold PositionToProtocolPosition
  rw [if_neg (by simp [hv])]
  exact if_pos hl

/-- Witness for C10 at line 0 of the example document. -/
theorem c10_line_below_one_maps_to_origin_witness :
    PositionToProtocolPosition ⟨0⟩ exDoc ⟨0, 5⟩ = .ok ⟨0, 0⟩ :=
  c10_line_below_one_maps_to_origin ⟨0⟩ exDoc ⟨0, 5⟩ rfl (by decide)
